import Mathlib

/-!
Shallow embedding of the guessinggame_ttv round engine and the persistence
store it drives.

Sources embedded here:
- `src/guessinggame_ttv/game.py` (class `Game`): `__init__` (as `startup`),
  `_load_previous_data`, `choose_new_word`, `update_point_value`, `process`,
  `end_round`, `_distribute_points`, `teardown`.
- `src/guessinggame_ttv/database.py` (class `DatabaseManager`): the operations
  the engine consumes.  The SQLite tables are modelled as follows.  The
  `wordlist` table (joined with `categories`, as `get_words` returns it) is a
  list of `(word, category)` pairs in row order; the `users` table is a list of
  rows in row order; the `meta` table, which is only ever read and written
  through its unique `name` key, is a key-to-value map.  `COLLATE NOCASE`
  column comparisons are modelled with lower-cased string equality.
  Python exceptions (`UserNotFoundException`, `WordNotFoundException`,
  `MetaNotFoundException`) are modelled as `none` results of `Option`-returning
  operations.
- Randomness: `random.choice(wordlist)` in `choose_new_word` is modelled by an
  oracle argument `pick : Nat`, selecting index `pick % wordlist.length`.
  Every index is selected by some oracle value, matching the uniform support
  of `random.choice`.
- Local variables of the Python functions are inlined where they are used;
  repeated subterms below correspond to a single Python local.
-/

/-- Prefix test on character lists: auxiliary for the Python substring test. -/
def charsStartWith : List Char → List Char → Bool
  | [], _ => true
  | _ :: _, [] => false
  | a :: as, b :: bs => a == b && charsStartWith as bs

/-- Contiguous-occurrence test on character lists: auxiliary for `pyIn`. -/
def charsWithin (n : List Char) : List Char → Bool
  | [] => charsStartWith n []
  | b :: t => charsStartWith n (b :: t) || charsWithin n t

/-- Python string membership `needle in haystack`: case-sensitive contiguous
substring containment, as used by `Game.process` (game.py line 221). -/
def pyIn (needle haystack : String) : Bool :=
  charsWithin needle.data haystack.data

/-- ASCII lowercasing of a string, character by character, for SQLite
`COLLATE NOCASE` folding. -/
def lowerStr (s : String) : String := ⟨s.data.map Char.toLower⟩

/-- Case-insensitive string equality, modelling SQLite `COLLATE NOCASE`
comparison on the `word`, `username` and `name` columns. -/
def ciEq (a b : String) : Bool := lowerStr a == lowerStr b

/-- Accumulator pass of the decimal parser backing `pyInt`. -/
def natOfDigits : List Char → Nat → Nat
  | [], acc => acc
  | c :: t, acc => natOfDigits t (acc * 10 + (c.toNat - 48))

/-- Python `int(string)` on the canonical decimal strings the engine stores:
an optional minus sign followed by digits; `none` models the `ValueError`
raised on anything else. -/
def pyInt (s : String) : Option Int :=
  match s.data with
  | [] => none
  | '-' :: rest =>
    if rest ≠ [] ∧ rest.all (·.isDigit) then
      some (-(natOfDigits rest 0 : Nat))
    else none
  | l => if l.all (·.isDigit) then some (natOfDigits l 0 : Nat) else none

/-- Row of the `users` table (database.py `_init_users`). -/
structure UserRow where
  username : String
  score : Int
  tokens : Int
deriving DecidableEq, Repr

/-- State of the persistence store as the engine observes it. -/
structure StoreState where
  wordlist : List (String × String)
  users : List UserRow
  meta : String → Option String

/-- In-memory state of the `Game` object (game.py lines 29-32). -/
structure GameState where
  word : String
  pointValue : Int
  category : String
  running : Bool
deriving DecidableEq, Repr

/-- Named tuple `ProcessData` (game.py lines 10-12).  `word` and `score` are
`None` on a failed guess, hence `Option`. -/
structure ProcessData where
  success : Bool
  word : Option String
  score : Option Int
  wordsRemaining : Nat
deriving DecidableEq, Repr

/-- DatabaseManager.get_meta: `SELECT data FROM meta WHERE name = ?`;
`none` models `MetaNotFoundException`. -/
def get_meta (s : StoreState) (name : String) : Option String :=
  s.meta (lowerStr name)

/-- DatabaseManager.set_meta: `INSERT OR REPLACE INTO meta(name, data)`,
an upsert on the unique (NOCASE) `name` key. -/
def set_meta (s : StoreState) (name data : String) : StoreState :=
  { s with meta := fun k =>
      if k == lowerStr name then some data else s.meta k }

/-- DatabaseManager.get_words: the word/category pairs in row order. -/
def get_words (s : StoreState) : List (String × String) :=
  s.wordlist

/-- DatabaseManager.get_remaining_word_count: `SELECT COUNT(word) FROM
wordlist`. -/
def get_remaining_word_count (s : StoreState) : Nat :=
  s.wordlist.length

/-- Whether a `users` row matches a username under `COLLATE NOCASE`. -/
def userMatches (u : UserRow) (name : String) : Bool :=
  ciEq u.username name

/-- DatabaseManager.get_score: the score of the matching row, defaulting
to 0 when the user is not in the database. -/
def get_score (s : StoreState) (name : String) : Int :=
  ((s.users.find? fun u => userMatches u name).map (·.score)).getD 0

/-- DatabaseManager.reset_scores: `UPDATE users SET score = 0`. -/
def reset_scores (s : StoreState) : StoreState :=
  { s with users := s.users.map fun u => { u with score := 0 } }

/-- DatabaseManager.add_score: `UPDATE users SET score = score + ? WHERE
username = ?`; `none` models `UserNotFoundException` (rowcount 0). -/
def add_score (s : StoreState) (name : String) (amount : Int) :
    Option StoreState :=
  if s.users.any fun u => userMatches u name then
    some { s with users := s.users.map fun u =>
      if userMatches u name then { u with score := u.score + amount } else u }
  else none

/-- DatabaseManager.add_user: `INSERT INTO users (username, score, tokens)`;
`none` models `UserExistsException` (NOCASE unique violation). -/
def add_user (s : StoreState) (name : String) (score tokens : Int) :
    Option StoreState :=
  if s.users.any fun u => userMatches u name then none
  else some { s with users := s.users ++ [⟨name, score, tokens⟩] }

/-- DatabaseManager.get_tokens: token count of the matching row, defaulting
to 0 when the user is not in the database. -/
def get_tokens (s : StoreState) (name : String) : Int :=
  ((s.users.find? fun u => userMatches u name).map (·.tokens)).getD 0

/-- DatabaseManager.add_tokens (database.py lines 560-600).  For a negative
amount that would take the balance to 0 or below, the code issues
`UPDATE users SET tokens = 0` and returns without checking the rowcount, so
that path never raises; otherwise it adds the amount and raises
`UserNotFoundException` (`none`) on rowcount 0. -/
def add_tokens (s : StoreState) (name : String) (amount : Int) :
    Option StoreState :=
  if amount < 0 ∧ get_tokens s name + amount ≤ 0 then
    some { s with users := s.users.map fun u =>
      if userMatches u name then { u with tokens := 0 } else u }
  else if s.users.any fun u => userMatches u name then
    some { s with users := s.users.map fun u =>
      if userMatches u name then { u with tokens := u.tokens + amount } else u }
  else none

/-- DatabaseManager.remove_word: `DELETE FROM wordlist WHERE word = ?`;
`none` models `WordNotFoundException`.  The code also looks up the category
first and drops it when it becomes empty; the `categories` table is not
observable through the engine-facing operations, so it is not modelled. -/
def remove_word (s : StoreState) (word : String) : Option StoreState :=
  if s.wordlist.any fun p => ciEq p.1 word then
    some { s with wordlist := s.wordlist.filter fun p => !ciEq p.1 word }
  else none

/-- Descending order on scores, for `ORDER BY score DESC`. -/
def scoreGe (a b : Int) : Prop := b ≤ a

/-- Descending order on (username, score) rows by score. -/
def entryScoreGe (a b : String × Int) : Prop := b.2 ≤ a.2

instance : DecidableRel scoreGe := fun a b => inferInstanceAs (Decidable (b ≤ a))

instance : DecidableRel entryScoreGe :=
  fun a b => inferInstanceAs (Decidable (b.2 ≤ a.2))

instance : IsTotal Int scoreGe := ⟨fun a b => (le_total a b).symm⟩

instance : IsTrans Int scoreGe := ⟨fun _ _ _ h1 h2 => le_trans h2 h1⟩

instance : IsTotal (String × Int) entryScoreGe :=
  ⟨fun a b => (le_total a.2 b.2).symm⟩

instance : IsTrans (String × Int) entryScoreGe :=
  ⟨fun _ _ _ h1 h2 => le_trans h2 h1⟩

/-- The `score` column in descending row order: result of the first query of
DatabaseManager.get_highscores, `SELECT score FROM users ORDER BY score DESC`.
The SQL ordering among equal keys is unspecified; row order (stable sort)
models it. -/
def sortedScores (s : StoreState) : List Int :=
  (s.users.map (·.score)).insertionSort scoreGe

/-- The `highest_scores` list of DatabaseManager.get_highscores: the first
three of `sortedScores`, padded with zeros up to length 3 (lines 437-445). -/
def topThree (s : StoreState) : List Int :=
  (sortedScores s).take 3
    ++ List.replicate (3 - ((sortedScores s).take 3).length) (0 : Int)

/-- The username/score rows in descending score order, for the second query
of DatabaseManager.get_highscores. -/
def sortedEntries (s : StoreState) : List (String × Int) :=
  (s.users.map fun u => (u.username, u.score)).insertionSort entryScoreGe

/-- DatabaseManager.get_highscores (database.py lines 424-454): the rows whose
score equals one of the three `topThree` values and is positive, in descending
score order, capped at 6 (`LIMIT 6`). -/
def get_highscores (s : StoreState) : List (String × Int) :=
  ((sortedEntries s).filter fun p =>
    decide (p.2 ∈ topThree s) && decide (0 < p.2)).take 6

/-- Game.update_point_value (game.py lines 155-179); `num_words` is the
remaining word count. -/
def update_point_value (g : GameState) (s : StoreState) : GameState :=
  if 20 < get_remaining_word_count s then { g with pointValue := 1 }
  else if 11 ≤ get_remaining_word_count s ∧ get_remaining_word_count s ≤ 20 then
    { g with pointValue := 2 }
  else { g with pointValue := 3 }

/-- Game.choose_new_word (game.py lines 125-153).  `random.choice(wordlist)`
is modelled by the oracle index `pick % wordlist.length`; the selected word is
always present, so the `remove_word` call cannot raise and `getD` never falls
back to `s`. -/
def choose_new_word (pick : Nat) (g : GameState) (s : StoreState) :
    Bool × GameState × StoreState :=
  if (get_words s).isEmpty then (false, g, s)
  else
    (true,
      { g with
        word := ((get_words s).getD (pick % (get_words s).length) ("", "")).1,
        category := ((get_words s).getD (pick % (get_words s).length) ("", "")).2 },
      (remove_word s
        ((get_words s).getD (pick % (get_words s).length) ("", "")).1).getD s)

/-- The `try: add_score / except UserNotFoundException: add_user` block of
Game.process (game.py lines 232-239).  The `add_user` call cannot raise
because it only runs when the user is absent. -/
def credit_guesser (s : StoreState) (username : String) (pv : Int) :
    StoreState :=
  match add_score s username pv with
  | some s2 => s2
  | none => (add_user s username pv 0).getD s

/-- Game.process (game.py lines 201-251).  `remaining_words` is the store
count plus one; on a miss nothing changes; on a hit the guesser is credited
and, unless `remaining_words - 1` is 0, a new word is chosen and the point
value recomputed. -/
def process (pick : Nat) (username msg : String) (g : GameState)
    (s : StoreState) : ProcessData × GameState × StoreState :=
  if pyIn g.word msg then
    if get_remaining_word_count s + 1 - 1 = 0 then
      (⟨true, some g.word, some g.pointValue, get_remaining_word_count s + 1 - 1⟩,
        g, credit_guesser s username g.pointValue)
    else
      (⟨true, some g.word, some g.pointValue, get_remaining_word_count s + 1 - 1⟩,
        update_point_value
          (choose_new_word pick g (credit_guesser s username g.pointValue)).2.1
          (choose_new_word pick g (credit_guesser s username g.pointValue)).2.2,
        (choose_new_word pick g (credit_guesser s username g.pointValue)).2.2)
  else
    (⟨false, none, none, get_remaining_word_count s + 1⟩, g, s)

/-- Game._distribute_points (game.py lines 279-299): 3 tokens to each returned
user matching the top score of the list, 2 to each strictly above the bottom
score of the list, 1 to the rest.  The `add_tokens` calls target users
returned by `get_highscores`, which exist, so the `getD` fallback models the
absence of an exception on that path. -/
def distribute_points (s : StoreState) (users : List (String × Int)) :
    StoreState :=
  match users with
  | [] => s
  | first :: rest =>
    (first :: rest).foldl (fun acc p =>
      (add_tokens acc p.1
        (if p.2 = first.2 then 3
         else if p.2 > (rest.getLastD first).2 then 2 else 1)).getD acc) s

/-- Game.end_round (game.py lines 253-277): fetch the highscores, pay out,
reset all scores, persist the flag pair and the cleared word snapshot, and
stop running.  The in-memory word, category and point value fields are left
as they were. -/
def end_round (g : GameState) (s : StoreState) :
    List (String × Int) × GameState × StoreState :=
  (get_highscores s,
    { g with running := false },
    set_meta (set_meta (set_meta (set_meta (set_meta
      (reset_scores (distribute_points s (get_highscores s)))
      "round_end" "True") "distribute_points" "False") "cur_word" "")
      "cur_cat" "") "cur_points" "0")

/-- Game.teardown (game.py lines 301-321). -/
def teardown (g : GameState) (s : StoreState) : StoreState :=
  if g.running then
    set_meta (set_meta (set_meta (set_meta (set_meta (set_meta s
      "cur_word" g.word) "cur_cat" g.category)
      "cur_points" (toString g.pointValue)) "round_end" "False")
      "distribute_points" "False") "update_round" "False"
  else
    set_meta (set_meta (set_meta s "round_end" "True")
      "distribute_points" "False") "update_round" "False"

/-- Truthiness of the stored flag strings, modelling the `eval(...)` calls in
Game.__init__ on metadata flags.  The system only ever stores `str(True)` and
`str(False)` in these keys, on which `eval` agrees with this test. -/
def pyEvalBool (v : String) : Bool := v == "True"

/-- Game._load_previous_data (game.py lines 106-123).  Returns `none` when all
three keys are present but `cur_points` does not parse as an integer, where
`int(...)` would raise an uncaught `ValueError`; otherwise returns the flag
`bool(word)` together with the updated fields (unchanged when a key was
missing). -/
def load_previous_data (g : GameState) (s : StoreState) :
    Option (Bool × GameState) :=
  match get_meta s "cur_word" with
  | none => some (false, g)
  | some w =>
    match get_meta s "cur_cat" with
    | none => some (false, g)
    | some c =>
      match get_meta s "cur_points" with
      | none => some (false, g)
      | some pts =>
        match pyInt pts with
        | none => none
        | some n =>
          some (w != "", { g with word := w, category := c, pointValue := n })

/-- Game.__init__ (game.py lines 16-104): the startup state machine.  Missing
flags default to false; a truthy `round_end` flag ends startup not running,
paying out first when `distribute_points` is truthy; otherwise saved state is
loaded, and unless data was loaded with a truthy `update_round` flag a new
word is chosen; the engine runs iff data was loaded or a word was chosen. -/
def startup (pick : Nat) (s : StoreState) : Option (GameState × StoreState) :=
  if ((get_meta s "round_end").map pyEvalBool).getD false then
    if ((get_meta s "distribute_points").map pyEvalBool).getD false then
      some ((end_round ⟨"", 0, "", false⟩ s).2.1, (end_round ⟨"", 0, "", false⟩ s).2.2)
    else
      some (⟨"", 0, "", false⟩, s)
  else
    match load_previous_data ⟨"", 0, "", false⟩ s with
    | none => none
    | some (loadedData, g1) =>
      if loadedData && ((get_meta s "update_round").map pyEvalBool).getD false then
        some ({ update_point_value g1 s with running := true }, s)
      else
        some ({ (if (choose_new_word pick g1 s).1 then
                  update_point_value (choose_new_word pick g1 s).2.1
                    (choose_new_word pick g1 s).2.2
                 else (choose_new_word pick g1 s).2.1) with
                running := loadedData || (choose_new_word pick g1 s).1 },
          (choose_new_word pick g1 s).2.2)

/-! ### Basic facts about the embedded operations -/

lemma ciEq_refl (a : String) : ciEq a a = true := by
  simp [ciEq]

@[simp] lemma set_meta_wordlist (s : StoreState) (k v : String) :
    (set_meta s k v).wordlist = s.wordlist := rfl

@[simp] lemma set_meta_users (s : StoreState) (k v : String) :
    (set_meta s k v).users = s.users := rfl

@[simp] lemma reset_scores_wordlist (s : StoreState) :
    (reset_scores s).wordlist = s.wordlist := rfl

@[simp] lemma update_point_value_word (g : GameState) (s : StoreState) :
    (update_point_value g s).word = g.word := by
  unfold update_point_value
  split
  · rfl
  · split <;> rfl

@[simp] lemma update_point_value_category (g : GameState) (s : StoreState) :
    (update_point_value g s).category = g.category := by
  unfold update_point_value
  split
  · rfl
  · split <;> rfl

@[simp] lemma update_point_value_running (g : GameState) (s : StoreState) :
    (update_point_value g s).running = g.running := by
  unfold update_point_value
  split
  · rfl
  · split <;> rfl

/-- C7: updatePointValue sets point_value purely from the remaining word
count: 1 above 20 words, 2 between 11 and 20 inclusive, 3 at 10 or fewer. -/
theorem update_point_value_thresholds (g : GameState) (s : StoreState) :
    (20 < get_remaining_word_count s →
      (update_point_value g s).pointValue = 1) ∧
    (11 ≤ get_remaining_word_count s → get_remaining_word_count s ≤ 20 →
      (update_point_value g s).pointValue = 2) ∧
    (get_remaining_word_count s ≤ 10 →
      (update_point_value g s).pointValue = 3) := by
  unfold update_point_value
  split
  · next hgt =>
    exact ⟨fun _ => rfl, fun h11 h20 => absurd hgt (by omega),
      fun h10 => absurd hgt (by omega)⟩
  · next hle =>
    split
    · next hmid =>
      exact ⟨fun h => absurd h hle, fun _ _ => rfl, fun h10 => by omega⟩
    · next hout =>
      exact ⟨fun h => absurd h hle, fun h11 h20 => absurd ⟨h11, h20⟩ hout,
        fun _ => rfl⟩

/-- Witness for C7: a store with 5 remaining words yields point value 3. -/
theorem update_point_value_thresholds_witness :
    (update_point_value ⟨"w", 0, "c", true⟩
      ⟨[("a","x"),("b","x"),("c","x"),("d","x"),("e","x")], [],
        fun _ => none⟩).pointValue = 3 :=
  (update_point_value_thresholds ⟨"w", 0, "c", true⟩
      ⟨[("a","x"),("b","x"),("c","x"),("d","x"),("e","x")], [],
        fun _ => none⟩).2.2 (by decide)

/-- C5: a running engine processing a message that does not contain the
current word returns failure with nil word and score, reports the store
count plus one, and changes nothing. -/
theorem process_miss_frame (pick : Nat) (username msg : String)
    (g : GameState) (s : StoreState)
    (hrun : g.running = true) (hmiss : pyIn g.word msg = false) :
    process pick username msg g s =
      (⟨false, none, none, get_remaining_word_count s + 1⟩, g, s) := by
  simp [process, hmiss]

/-- Witness for C5: concrete miss on a running engine. -/
theorem process_miss_frame_witness :
    process 0 "carol" "zzz" ⟨"alpha", 2, "animals", true⟩
        ⟨[("beta","animals")], [], fun _ => none⟩ =
      (⟨false, none, none, 2⟩, ⟨"alpha", 2, "animals", true⟩,
        ⟨[("beta","animals")], [], fun _ => none⟩) :=
  process_miss_frame 0 "carol" "zzz" ⟨"alpha", 2, "animals", true⟩
    ⟨[("beta","animals")], [], fun _ => none⟩ rfl (by decide)

lemma choose_new_word_empty (pick : Nat) (g : GameState) (s : StoreState)
    (h : s.wordlist = []) : choose_new_word pick g s = (false, g, s) := by
  simp [choose_new_word, get_words, h]

lemma choose_new_word_pos (pick : Nat) (g : GameState) (s : StoreState)
    (h : s.wordlist ≠ []) :
    choose_new_word pick g s =
      (true,
        { g with
          word := (s.wordlist.getD (pick % s.wordlist.length) ("", "")).1,
          category := (s.wordlist.getD (pick % s.wordlist.length) ("", "")).2 },
        { s with wordlist := s.wordlist.filter fun p =>
            !ciEq p.1 (s.wordlist.getD (pick % s.wordlist.length) ("", "")).1 }) := by
  have hlen : 0 < s.wordlist.length := List.length_pos.mpr h
  have hmem : s.wordlist.getD (pick % s.wordlist.length) ("", "") ∈ s.wordlist := by
    rw [List.getD_eq_getElem?_getD,
      List.getElem?_eq_getElem (Nat.mod_lt _ hlen), Option.getD_some]
    exact List.getElem_mem _
  have hany : (s.wordlist.any fun p =>
      ciEq p.1 (s.wordlist.getD (pick % s.wordlist.length) ("", "")).1) = true :=
    List.any_eq_true.mpr ⟨_, hmem, ciEq_refl _⟩
  have hne : (get_words s).isEmpty = false := by
    simp [get_words, h]
  unfold choose_new_word
  rw [hne]
  simp only [Bool.false_eq_true, if_false, get_words, remove_word, hany,
    if_true, Option.getD_some]

lemma getD_mem_of_ne_nil (s : StoreState) (pick : Nat) (h : s.wordlist ≠ []) :
    s.wordlist.getD (pick % s.wordlist.length) ("", "") ∈ s.wordlist := by
  have hlen : 0 < s.wordlist.length := List.length_pos.mpr h
  rw [List.getD_eq_getElem?_getD,
    List.getElem?_eq_getElem (Nat.mod_lt _ hlen), Option.getD_some]
  exact List.getElem_mem _

/-- C6: on a non-empty store chooseNewWord succeeds, installs the pair at the
random oracle index (each pair is selected by some oracle value), and the
selected word is gone from the store afterwards; on an empty store it fails
and changes nothing. -/
theorem choose_new_word_spec (pick : Nat) (g : GameState) (s : StoreState) :
    (s.wordlist = [] → choose_new_word pick g s = (false, g, s)) ∧
    (s.wordlist ≠ [] →
      (choose_new_word pick g s).1 = true ∧
      ((choose_new_word pick g s).2.1.word,
        (choose_new_word pick g s).2.1.category) =
          s.wordlist.getD (pick % s.wordlist.length) ("", "") ∧
      ((choose_new_word pick g s).2.1.word,
        (choose_new_word pick g s).2.1.category) ∈ s.wordlist ∧
      (choose_new_word pick g s).2.1.word ∉
        (choose_new_word pick g s).2.2.wordlist.map Prod.fst) := by
  refine ⟨choose_new_word_empty pick g s, fun h => ?_⟩
  rw [choose_new_word_pos pick g s h]
  refine ⟨rfl, rfl, ?_, ?_⟩
  · exact getD_mem_of_ne_nil s pick h
  · intro hcontra
    obtain ⟨p, hp, hfst⟩ := List.mem_map.mp hcontra
    have hfilter := (List.mem_filter.mp hp).2
    rw [hfst] at hfilter
    simp [ciEq_refl] at hfilter

/-- Witness for C6: both branches at concrete stores. -/
theorem choose_new_word_spec_witness :
    choose_new_word 0 ⟨"w", 1, "c", true⟩ ⟨[], [], fun _ => none⟩ =
        (false, ⟨"w", 1, "c", true⟩, ⟨[], [], fun _ => none⟩) ∧
      (choose_new_word 0 ⟨"w", 1, "c", true⟩
        ⟨[("apple","fruit")], [], fun _ => none⟩).1 = true :=
  ⟨(choose_new_word_spec 0 ⟨"w", 1, "c", true⟩ ⟨[], [], fun _ => none⟩).1 rfl,
    ((choose_new_word_spec 0 ⟨"w", 1, "c", true⟩
      ⟨[("apple","fruit")], [], fun _ => none⟩).2 (by decide)).1⟩

/-! ### Round end (claims C1, C2, C4) -/

/-- C4 (amended part): endRound resets every persisted score to 0, stops the
engine, persists round_end=True and distribute_points=False, clears the
persisted cur_word / cur_cat / cur_points snapshot, and leaves the in-memory
word, category and point value fields unchanged. -/
theorem end_round_post (g : GameState) (s : StoreState) :
    (∀ u ∈ (end_round g s).2.2.users, u.score = 0) ∧
    (end_round g s).2.1.running = false ∧
    get_meta (end_round g s).2.2 "round_end" = some "True" ∧
    get_meta (end_round g s).2.2 "distribute_points" = some "False" ∧
    get_meta (end_round g s).2.2 "cur_word" = some "" ∧
    get_meta (end_round g s).2.2 "cur_cat" = some "" ∧
    get_meta (end_round g s).2.2 "cur_points" = some "0" ∧
    (end_round g s).2.1.word = g.word ∧
    (end_round g s).2.1.category = g.category ∧
    (end_round g s).2.1.pointValue = g.pointValue := by
  refine ⟨?_, rfl, rfl, rfl, rfl, rfl, rfl, rfl, rfl, rfl⟩
  intro u hu
  simp only [end_round, set_meta_users, reset_scores, List.mem_map] at hu
  obtain ⟨x, hx, hxu⟩ := hu
  rw [← hxu]

/-- Counterexample for C4 as stated: after endRound the in-memory
current_word, current_category and point_value of the engine are not
cleared. -/
theorem end_round_keeps_memory_fields :
    (end_round ⟨"cat", 2, "animals", true⟩
      ⟨[], [⟨"a", 5, 0⟩], fun _ => none⟩).2.1.word = "cat" ∧
    (end_round ⟨"cat", 2, "animals", true⟩
      ⟨[], [⟨"a", 5, 0⟩], fun _ => none⟩).2.1.category = "animals" ∧
    (end_round ⟨"cat", 2, "animals", true⟩
      ⟨[], [⟨"a", 5, 0⟩], fun _ => none⟩).2.1.pointValue = 2 ∧
    ("cat" : String) ≠ "" := by
  exact ⟨rfl, rfl, rfl, by decide⟩

/-- Store for the C2 payout scenario: scores A=5, B=5, C=4, D=3. -/
def exC2s : StoreState :=
  ⟨[], [⟨"a", 5, 0⟩, ⟨"b", 5, 0⟩, ⟨"c", 4, 0⟩, ⟨"d", 3, 0⟩], fun _ => none⟩

/-- C2 evaluated on the code: with scores {A:5, B:5, C:4, D:3} the store
highscore query returns only A, B and C (D is dropped because 3 is not among
the top three row scores [5, 5, 4]), and the payout is A:+3, B:+3, C:+1,
D:+0 rather than the claimed {+3, +3, +2, +1}; scores do reset to 0 and the
engine stops running. -/
theorem end_round_payout_eval :
    get_highscores exC2s = [("a", 5), ("b", 5), ("c", 4)] ∧
    get_tokens (end_round ⟨"", 0, "", true⟩ exC2s).2.2 "a" = 3 ∧
    get_tokens (end_round ⟨"", 0, "", true⟩ exC2s).2.2 "b" = 3 ∧
    get_tokens (end_round ⟨"", 0, "", true⟩ exC2s).2.2 "c" = 1 ∧
    get_tokens (end_round ⟨"", 0, "", true⟩ exC2s).2.2 "d" = 0 ∧
    (∀ u ∈ (end_round ⟨"", 0, "", true⟩ exC2s).2.2.users, u.score = 0) ∧
    (end_round ⟨"", 0, "", true⟩ exC2s).2.1.running = false := by
  decide

/-- Running engine for the C1 round-trip scenario. -/
def exC1g : GameState := ⟨"alpha", 2, "animals", true⟩

/-- Store for the C1 round-trip scenario: one more word remains. -/
def exC1s : StoreState := ⟨[("beta", "animals")], [], fun _ => none⟩

/-- C1 evaluated on the code: teardown of a running engine holding "alpha"
followed by a fresh startup against the same store yields a running engine
whose current word is "beta", not the saved "alpha".  Because teardown writes
update_round=False, the startup condition `loaded_data and update_round` is
false and the constructor takes the choose-new-word branch even though the
saved state was loaded. -/
theorem teardown_restart_changes_word :
    ((startup 0 (teardown exC1g exC1s)).map fun x => x.1.word) = some "beta" ∧
    ((startup 0 (teardown exC1g exC1s)).map fun x => x.1.running) = some true ∧
    exC1g.word = "alpha" := by
  decide

/-- Store for the C8 scenario: a single user alice with 5 tokens. -/
def exC8s : StoreState := ⟨[], [⟨"alice", 0, 5⟩], fun _ => none⟩

/-- C8 evaluated on the code: add_tokens with a negative amount and a missing
user returns successfully with the user table unchanged instead of raising
UserNotFound; with a non-negative amount it does raise; for an existing user
the balance is clamped at 0. -/
theorem add_tokens_missing_user_eval :
    (add_tokens exC8s "ghost" (-1)).isSome = true ∧
    ((add_tokens exC8s "ghost" (-1)).map (·.users)) = some exC8s.users ∧
    (add_tokens exC8s "ghost" 1).isSome = false ∧
    ((add_tokens exC8s "alice" (-10)).map fun s2 => get_tokens s2 "alice") =
      some 0 ∧
    ((add_tokens exC8s "alice" (-3)).map fun s2 => get_tokens s2 "alice") =
      some 2 := by
  decide

/-! ### Crediting the guesser (claim C10) -/

lemma add_score_wordlist (s : StoreState) (name : String) (amount : Int)
    (s2 : StoreState) (h : add_score s name amount = some s2) :
    s2.wordlist = s.wordlist := by
  unfold add_score at h
  split at h
  · injection h with h2
    rw [← h2]
  · exact absurd h (by simp)

lemma add_user_wordlist (s : StoreState) (name : String) (score tokens : Int)
    (s2 : StoreState) (h : add_user s name score tokens = some s2) :
    s2.wordlist = s.wordlist := by
  unfold add_user at h
  split at h
  · exact absurd h (by simp)
  · injection h with h2
    rw [← h2]

lemma credit_guesser_wordlist (s : StoreState) (username : String) (pv : Int) :
    (credit_guesser s username pv).wordlist = s.wordlist := by
  unfold credit_guesser
  cases hs : add_score s username pv with
  | some s2 => exact add_score_wordlist s username pv s2 hs
  | none =>
    cases hu : add_user s username pv 0 with
    | some s3 => simpa using add_user_wordlist s username pv 0 s3 hu
    | none => simp

lemma find?_map_users (l : List UserRow) (f : UserRow → UserRow)
    (name : String) (hf : ∀ u, (f u).username = u.username) :
    ((l.map f).find? fun u => userMatches u name) =
      (l.find? fun u => userMatches u name).map f := by
  induction l with
  | nil => rfl
  | cons a t ih =>
    have hmatch : userMatches (f a) name = userMatches a name := by
      unfold userMatches ciEq
      rw [hf]
    cases hm : userMatches a name with
    | true =>
      have hfa : userMatches (f a) name = true := by rw [hmatch]; exact hm
      simp [List.find?, hfa, hm]
    | false =>
      have hfa : userMatches (f a) name = false := by rw [hmatch]; exact hm
      simp [List.find?, hfa, hm, ih]

lemma get_score_credit (s : StoreState) (username : String) (pv : Int) :
    get_score (credit_guesser s username pv) username =
      get_score s username + pv := by
  unfold credit_guesser
  cases hs : add_score s username pv with
  | some s2 =>
    unfold add_score at hs
    split at hs
    case isTrue hex =>
      injection hs with hs2
      subst hs2
      unfold get_score
      rw [find?_map_users _ _ _ (fun u => by split <;> rfl)]
      cases hv : s.users.find? fun u => userMatches u username with
      | none =>
        exfalso
        obtain ⟨u0, hu0mem, hu0p⟩ := List.any_eq_true.mp hex
        rw [List.find?_eq_none] at hv
        exact hv u0 hu0mem hu0p
      | some v0 =>
        have hm := List.find?_some hv
        simp only [] at hm
        simp [hm]
    case isFalse => exact absurd hs (by simp)
  | none =>
    unfold add_score at hs
    split at hs
    case isTrue => exact absurd hs (by simp)
    case isFalse hnex =>
      have hall : ∀ u ∈ s.users, ¬ userMatches u username = true := by
        intro u hu hp
        exact hnex (List.any_eq_true.mpr ⟨u, hu, hp⟩)
      have hfind : (s.users.find? fun u => userMatches u username) = none :=
        List.find?_eq_none.mpr hall
      unfold add_user
      rw [if_neg hnex]
      unfold get_score
      simp only [Option.getD_some, List.find?_append, hfind, Option.none_or]
      rw [List.find?_cons_of_pos _ (by unfold userMatches; exact ciEq_refl username)]
      simp [hfind, get_score]

/-- C10: a winning guess that consumes the last word (returned wordsRemaining
is 0) leaves the engine running with current_word unchanged, so a second
message containing that word wins again and credits the same user a second
time. -/
theorem process_last_word_double_credit (pick1 pick2 : Nat)
    (u msg1 msg2 : String) (g : GameState) (s : StoreState)
    (hrun : g.running = true) (hempty : s.wordlist = [])
    (h1 : pyIn g.word msg1 = true) (h2 : pyIn g.word msg2 = true) :
    (process pick1 u msg1 g s).1.success = true ∧
    (process pick1 u msg1 g s).1.wordsRemaining = 0 ∧
    (process pick1 u msg1 g s).2.1.running = true ∧
    (process pick1 u msg1 g s).2.1.word = g.word ∧
    (process pick2 u msg2 (process pick1 u msg1 g s).2.1
      (process pick1 u msg1 g s).2.2).1.success = true ∧
    (process pick2 u msg2 (process pick1 u msg1 g s).2.1
      (process pick1 u msg1 g s).2.2).1.word = some g.word ∧
    get_score (process pick2 u msg2 (process pick1 u msg1 g s).2.1
      (process pick1 u msg1 g s).2.2).2.2 u =
      get_score s u + 2 * g.pointValue := by
  have hcount : get_remaining_word_count s = 0 := by
    simp [get_remaining_word_count, hempty]
  have hp1 : process pick1 u msg1 g s =
      (⟨true, some g.word, some g.pointValue, 0⟩, g,
        credit_guesser s u g.pointValue) := by
    simp [process, h1, hcount]
  have hs1 : (credit_guesser s u g.pointValue).wordlist = [] := by
    rw [credit_guesser_wordlist]
    exact hempty
  have hcount1 :
      get_remaining_word_count (credit_guesser s u g.pointValue) = 0 := by
    simp [get_remaining_word_count, hs1]
  have hp2 : process pick2 u msg2 g (credit_guesser s u g.pointValue) =
      (⟨true, some g.word, some g.pointValue, 0⟩, g,
        credit_guesser (credit_guesser s u g.pointValue) u g.pointValue) := by
    simp [process, h2, hcount1]
  rw [hp1]
  refine ⟨rfl, rfl, hrun, rfl, ?_, ?_, ?_⟩
  · rw [hp2]
  · rw [hp2]
  · rw [hp2]
    show get_score
      (credit_guesser (credit_guesser s u g.pointValue) u g.pointValue) u =
        get_score s u + 2 * g.pointValue
    rw [get_score_credit, get_score_credit]
    ring

/-- Game for the C10 witness. -/
def gW10 : GameState := ⟨"alpha", 2, "cats", true⟩

/-- Empty-wordlist store for the C10 witness. -/
def sW10 : StoreState := ⟨[], [], fun _ => none⟩

/-- Witness for C10: both messages contain the word alpha, the store is out
of words, and bob is credited twice. -/
theorem process_last_word_double_credit_witness :
    (process 0 "bob" "say alpha" gW10 sW10).1.success = true ∧
    (process 0 "bob" "say alpha" gW10 sW10).1.wordsRemaining = 0 ∧
    (process 0 "bob" "say alpha" gW10 sW10).2.1.running = true ∧
    (process 0 "bob" "say alpha" gW10 sW10).2.1.word = gW10.word ∧
    (process 1 "bob" "alpha again" (process 0 "bob" "say alpha" gW10 sW10).2.1
      (process 0 "bob" "say alpha" gW10 sW10).2.2).1.success = true ∧
    (process 1 "bob" "alpha again" (process 0 "bob" "say alpha" gW10 sW10).2.1
      (process 0 "bob" "say alpha" gW10 sW10).2.2).1.word = some gW10.word ∧
    get_score (process 1 "bob" "alpha again"
      (process 0 "bob" "say alpha" gW10 sW10).2.1
      (process 0 "bob" "say alpha" gW10 sW10).2.2).2.2 "bob" =
      get_score sW10 "bob" + 2 * gW10.pointValue :=
  process_last_word_double_credit 0 1 "bob" "say alpha" "alpha again"
    gW10 sW10 rfl rfl (by decide) (by decide)

/-! ### Highscore query (claim C3) -/

lemma pairwise_take_drop {α : Type} {r : α → α → Prop} {l : List α}
    (h : l.Pairwise r) (n : Nat) :
    ∀ x ∈ l.take n, ∀ y ∈ l.drop n, r x y := by
  have h2 : (l.take n ++ l.drop n).Pairwise r := by
    rw [List.take_append_drop]
    exact h
  exact fun x hx y hy => (List.pairwise_append.mp h2).2.2 x hx y hy

/-- C3: getHighscores returns at most 6 entries, sorted descending by score,
each a positive-score row of the user table; and any user with positive score
who is left out scores no more than every returned entry. -/
theorem get_highscores_spec (s : StoreState) :
    (get_highscores s).length ≤ 6 ∧
    List.Sorted entryScoreGe (get_highscores s) ∧
    (∀ p ∈ get_highscores s,
      0 < p.2 ∧ p ∈ s.users.map fun u => (u.username, u.score)) ∧
    (∀ u ∈ s.users, 0 < u.score →
      (u.username, u.score) ∉ get_highscores s →
      ∀ p ∈ get_highscores s, u.score ≤ p.2) := by
  have hsortE : List.Sorted entryScoreGe (sortedEntries s) :=
    List.sorted_insertionSort entryScoreGe _
  have hsortS : List.Sorted scoreGe (sortedScores s) :=
    List.sorted_insertionSort scoreGe _
  have hsortF : ((sortedEntries s).filter fun p =>
      decide (p.2 ∈ topThree s) && decide (0 < p.2)).Pairwise entryScoreGe :=
    List.Pairwise.filter _ hsortE
  have hmemf : ∀ p ∈ get_highscores s,
      p ∈ (sortedEntries s).filter fun p =>
        decide (p.2 ∈ topThree s) && decide (0 < p.2) := by
    intro p hp
    unfold get_highscores at hp
    exact (List.take_sublist _ _).subset hp
  have hfacts : ∀ p ∈ get_highscores s,
      p.2 ∈ topThree s ∧ 0 < p.2 ∧
        p ∈ s.users.map fun u => (u.username, u.score) := by
    intro p hp
    have hf := hmemf p hp
    obtain ⟨hse, hP⟩ := List.mem_filter.mp hf
    rw [Bool.and_eq_true] at hP
    refine ⟨of_decide_eq_true hP.1, of_decide_eq_true hP.2, ?_⟩
    unfold sortedEntries at hse
    rwa [List.mem_insertionSort] at hse
  refine ⟨?_, ?_, ?_, ?_⟩
  · unfold get_highscores
    rw [List.length_take]
    exact min_le_left _ _
  · unfold get_highscores
    exact List.Pairwise.sublist (List.take_sublist _ _) hsortF
  · intro p hp
    exact ⟨(hfacts p hp).2.1, (hfacts p hp).2.2⟩
  · intro u hu hupos hnot p hp
    by_cases hin : u.score ∈ topThree s
    · -- the row passes the filter, so it was cut by the cap of 6
      have hpu : (u.username, u.score) ∈ sortedEntries s := by
        unfold sortedEntries
        rw [List.mem_insertionSort]
        exact List.mem_map_of_mem _ hu
      have hpuf : (u.username, u.score) ∈ (sortedEntries s).filter fun p =>
          decide (p.2 ∈ topThree s) && decide (0 < p.2) :=
        List.mem_filter.mpr ⟨hpu, by simp [hin, hupos]⟩
      have hsplitmem : (u.username, u.score) ∈
          ((sortedEntries s).filter fun p =>
            decide (p.2 ∈ topThree s) && decide (0 < p.2)).take 6 ∨
          (u.username, u.score) ∈
          ((sortedEntries s).filter fun p =>
            decide (p.2 ∈ topThree s) && decide (0 < p.2)).drop 6 := by
        rw [← List.mem_append, List.take_append_drop]
        exact hpuf
      cases hsplitmem with
      | inl h6 => exact absurd h6 hnot
      | inr h6 => exact pairwise_take_drop hsortF 6 p hp _ h6
    · -- the score is below the three top row scores
      have hs : u.score ∈ sortedScores s := by
        unfold sortedScores
        rw [List.mem_insertionSort]
        exact List.mem_map_of_mem _ hu
      have hdrop : u.score ∈ (sortedScores s).drop 3 := by
        have hsplitmem : u.score ∈ (sortedScores s).take 3 ∨
            u.score ∈ (sortedScores s).drop 3 := by
          rw [← List.mem_append, List.take_append_drop]
          exact hs
        cases hsplitmem with
        | inl h3 => exact absurd (List.mem_append_left _ h3) hin
        | inr h3 => exact h3
      have hp2take : p.2 ∈ (sortedScores s).take 3 := by
        rcases List.mem_append.mp (hfacts p hp).1 with h | h
        · exact h
        · have h0 := List.eq_of_mem_replicate h
          have hppos := (hfacts p hp).2.1
          omega
      exact pairwise_take_drop hsortS 3 _ hp2take _ hdrop

/-- Witness for C3: the spec applied at the four-user store. -/
theorem get_highscores_spec_witness : (get_highscores exC2s).length ≤ 6 :=
  (get_highscores_spec exC2s).1

/-! ### Running-word invariant (claim C9) -/

/-- All stored words are non-empty strings. -/
def WordsOk (s : StoreState) : Prop := ∀ p ∈ s.wordlist, p.1 ≠ ""

/-- Wellformedness of a store the engine is booted against: words are
non-empty, and a saved cur_word accompanied by a truthy update_round flag has
already been consumed from the word pool.  This captures stores persisted by
the system itself, excluding out-of-scope operator edits between runs. -/
def WfStore (s : StoreState) : Prop :=
  WordsOk s ∧
  ∀ v, get_meta s "update_round" = some v → pyEvalBool v = true →
    ∀ w, get_meta s "cur_word" = some w →
      w = "" ∨ ∀ p ∈ s.wordlist, p.1 ≠ w

/-- The invariant of claim C9 together with the store wellformedness that
keeps it inductive: while running, the current word is non-empty and absent
from the stored word pool. -/
def RunInv (g : GameState) (s : StoreState) : Prop :=
  WordsOk s ∧
  (g.running = true → g.word ≠ "" ∧ ∀ p ∈ s.wordlist, p.1 ≠ g.word)

/-- One operation of the engine, as listed by the claim: process,
chooseNewWord, endRound, teardown, and a restart (teardown followed by a
fresh startup against the resulting store). -/
inductive Step : GameState × StoreState → GameState × StoreState → Prop
  | proc (pick : Nat) (username msg : String) (g : GameState)
      (s : StoreState) : Step (g, s) (process pick username msg g s).2
  | chooseWord (pick : Nat) (g : GameState) (s : StoreState) :
      Step (g, s) (choose_new_word pick g s).2
  | roundEnd (g : GameState) (s : StoreState) :
      Step (g, s) (end_round g s).2
  | shutdown (g : GameState) (s : StoreState) :
      Step (g, s) (g, teardown g s)
  | restart (pick : Nat) (g : GameState) (s : StoreState)
      (gs : GameState × StoreState) :
      startup pick (teardown g s) = some gs → Step (g, s) gs

/-- Engine states reachable from a startup against a wellformed store through
the engine operations. -/
inductive Reachable : GameState × StoreState → Prop
  | boot (pick : Nat) (s : StoreState) (gs : GameState × StoreState) :
      WfStore s → startup pick s = some gs → Reachable gs
  | step (x y : GameState × StoreState) :
      Reachable x → Step x y → Reachable y

lemma runInv_store_congr {g : GameState} {s s2 : StoreState}
    (he : s2.wordlist = s.wordlist) (h : RunInv g s) : RunInv g s2 := by
  obtain ⟨hw, hr⟩ := h
  refine ⟨fun p hp => hw p (he ▸ hp), fun hrun =>
    ⟨(hr hrun).1, fun p hp => (hr hrun).2 p (he ▸ hp)⟩⟩

lemma choose_new_word_found (pick : Nat) (g : GameState) (s : StoreState)
    (hw : WordsOk s) (hne : s.wordlist ≠ []) :
    (choose_new_word pick g s).1 = true ∧
    (choose_new_word pick g s).2.1.word ≠ "" ∧
    (∀ p ∈ (choose_new_word pick g s).2.2.wordlist,
      p.1 ≠ (choose_new_word pick g s).2.1.word) ∧
    WordsOk (choose_new_word pick g s).2.2 ∧
    (choose_new_word pick g s).2.1.running = g.running := by
  rw [choose_new_word_pos pick g s hne]
  refine ⟨rfl, ?_, ?_, ?_, rfl⟩
  · exact hw _ (getD_mem_of_ne_nil s pick hne)
  · intro p hp heq
    have h2 := (List.mem_filter.mp hp).2
    rw [heq] at h2
    simp [ciEq_refl] at h2
  · intro p hp
    exact hw p (List.mem_filter.mp hp).1

lemma choose_new_word_runInv (pick : Nat) (g : GameState) (s : StoreState)
    (h : RunInv g s) :
    RunInv (choose_new_word pick g s).2.1 (choose_new_word pick g s).2.2 := by
  by_cases hem : s.wordlist = []
  · rw [choose_new_word_empty pick g s hem]
    exact h
  · have hf := choose_new_word_found pick g s h.1 hem
    exact ⟨hf.2.2.2.1, fun _ => ⟨hf.2.1, hf.2.2.1⟩⟩

lemma add_tokens_getD_wordlist (s : StoreState) (name : String) (amt : Int) :
    ((add_tokens s name amt).getD s).wordlist = s.wordlist := by
  unfold add_tokens
  split
  · rfl
  · split
    · rfl
    · rfl

lemma foldl_add_tokens_wordlist (amtf : String × Int → Int) :
    ∀ (l : List (String × Int)) (acc : StoreState),
      (l.foldl (fun acc p => (add_tokens acc p.1 (amtf p)).getD acc)
        acc).wordlist = acc.wordlist := by
  intro l
  induction l with
  | nil => intro acc; rfl
  | cons a t ih =>
    intro acc
    rw [List.foldl_cons, ih, add_tokens_getD_wordlist]

lemma distribute_points_wordlist (s : StoreState)
    (users : List (String × Int)) :
    (distribute_points s users).wordlist = s.wordlist := by
  unfold distribute_points
  cases users with
  | nil => rfl
  | cons first rest =>
    exact foldl_add_tokens_wordlist
      (fun p => if p.2 = first.2 then 3
        else if p.2 > (rest.getLastD first).2 then 2 else 1) (first :: rest) s

lemma end_round_wordlist (g : GameState) (s : StoreState) :
    (end_round g s).2.2.wordlist = s.wordlist := by
  show (reset_scores (distribute_points s (get_highscores s))).wordlist =
    s.wordlist
  rw [reset_scores_wordlist, distribute_points_wordlist]

lemma teardown_wordlist (g : GameState) (s : StoreState) :
    (teardown g s).wordlist = s.wordlist := by
  unfold teardown
  split
  · rfl
  · rfl

lemma get_meta_teardown_update_round (g : GameState) (s : StoreState) :
    get_meta (teardown g s) "update_round" = some "False" := by
  unfold teardown
  split
  · rfl
  · rfl

lemma wf_teardown (g : GameState) (s : StoreState) (h : RunInv g s) :
    WfStore (teardown g s) := by
  refine ⟨fun p hp => h.1 p (by rwa [teardown_wordlist] at hp), ?_⟩
  intro v hv hev w hw
  rw [get_meta_teardown_update_round] at hv
  injection hv with hv2
  subst hv2
  exact absurd hev (by decide)

lemma load_previous_data_facts (g : GameState) (s : StoreState)
    (loaded : Bool) (g1 : GameState)
    (h : load_previous_data g s = some (loaded, g1)) :
    g1.running = g.running ∧
    (loaded = true → g1.word ≠ "" ∧ get_meta s "cur_word" = some g1.word) := by
  unfold load_previous_data at h
  split at h
  next =>
    injection h with h2
    injection h2 with ha hb
    subst ha
    subst hb
    exact ⟨rfl, fun hl => absurd hl (by simp)⟩
  next w hw =>
    split at h
    next =>
      injection h with h2
      injection h2 with ha hb
      subst ha
      subst hb
      exact ⟨rfl, fun hl => absurd hl (by simp)⟩
    next c hc =>
      split at h
      next =>
        injection h with h2
        injection h2 with ha hb
        subst ha
        subst hb
        exact ⟨rfl, fun hl => absurd hl (by simp)⟩
      next pts hpts =>
        split at h
        next => exact absurd h (by simp)
        next n hn =>
          injection h with h2
          injection h2 with ha hb
          subst ha
          subst hb
          exact ⟨rfl, fun hl => ⟨bne_iff_ne.mp hl, hw⟩⟩

lemma process_runInv (pick : Nat) (username msg : String) (g : GameState)
    (s : StoreState) (h : RunInv g s) :
    RunInv (process pick username msg g s).2.1
      (process pick username msg g s).2.2 := by
  unfold process
  split
  · split
    · exact runInv_store_congr
        (credit_guesser_wordlist s username g.pointValue) h
    · next hnz =>
      have hs1 : (credit_guesser s username g.pointValue).wordlist =
          s.wordlist := credit_guesser_wordlist s username g.pointValue
      have hne : (credit_guesser s username g.pointValue).wordlist ≠ [] := by
        rw [hs1]
        intro hc
        exact hnz (by simp [get_remaining_word_count, hc])
      have hinv1 : RunInv g (credit_guesser s username g.pointValue) :=
        runInv_store_congr hs1 h
      have hf := choose_new_word_found pick g _ hinv1.1 hne
      refine ⟨hf.2.2.2.1, fun _ => ?_⟩
      rw [update_point_value_word]
      exact ⟨hf.2.1, hf.2.2.1⟩
  · exact h

lemma end_round_runInv (g : GameState) (s : StoreState) (h : RunInv g s) :
    RunInv (end_round g s).2.1 (end_round g s).2.2 := by
  refine ⟨fun p hp => h.1 p (by rwa [end_round_wordlist] at hp), ?_⟩
  intro hrun
  simp [end_round] at hrun

lemma startup_runInv (pick : Nat) (s : StoreState)
    (gs : GameState × StoreState)
    (hwf : WfStore s) (h : startup pick s = some gs) : RunInv gs.1 gs.2 := by
  unfold startup at h
  split at h
  · split at h
    · injection h with h2
      subst h2
      refine ⟨fun p hp => hwf.1 p (by rwa [end_round_wordlist] at hp), ?_⟩
      intro hrun
      simp [end_round] at hrun
    · injection h with h2
      subst h2
      exact ⟨hwf.1, fun hrun => by simp at hrun⟩
  · split at h
    · exact Option.noConfusion h
    · next loadedData g1 heq =>
      obtain ⟨hrun1, hload⟩ := load_previous_data_facts _ _ _ _ heq
      split at h
      · next hcond =>
        injection h with h2
        subst h2
        rw [Bool.and_eq_true] at hcond
        refine ⟨hwf.1, fun _ => ?_⟩
        have hl := hload hcond.1
        have hur2 := hcond.2
        cases hur : get_meta s "update_round" with
        | none =>
          rw [hur] at hur2
          simp at hur2
        | some v =>
          rw [hur] at hur2
          simp at hur2
          have hres := hwf.2 v hur hur2 g1.word hl.2
          have hword : ({ update_point_value g1 s with
              running := true } : GameState).word = g1.word := by
            show (update_point_value g1 s).word = g1.word
            exact update_point_value_word g1 s
          rw [hword]
          rcases hres with hres | hres
          · exact absurd hres hl.1
          · exact ⟨hl.1, hres⟩
      · next hcond =>
        injection h with h2
        subst h2
        by_cases hem : s.wordlist = []
        · have hch := choose_new_word_empty pick g1 s hem
          rw [hch]
          refine ⟨hwf.1, fun hrun => ?_⟩
          simp only [Bool.or_false] at hrun
          have hl := hload hrun
          exact ⟨hl.1, by rw [hem]; intro p hp; cases hp⟩
        · have hf := choose_new_word_found pick g1 s hwf.1 hem
          rw [hf.1]
          refine ⟨hf.2.2.2.1, fun _ => ?_⟩
          simp only [if_true]
          have hword : ({ update_point_value (choose_new_word pick g1 s).2.1
              (choose_new_word pick g1 s).2.2 with
              running := loadedData || true } : GameState).word =
              (choose_new_word pick g1 s).2.1.word := by
            show (update_point_value _ _).word = _
            exact update_point_value_word _ _
          rw [hword]
          exact ⟨hf.2.1, hf.2.2.1⟩

lemma reachable_runInv (gs : GameState × StoreState) (h : Reachable gs) :
    RunInv gs.1 gs.2 := by
  induction h with
  | boot pick s gs hwf hs => exact startup_runInv pick s gs hwf hs
  | step x y hx hstep ih =>
    cases hstep with
    | proc pick username msg g s =>
      exact process_runInv pick username msg g s ih
    | chooseWord pick g s => exact choose_new_word_runInv pick g s ih
    | roundEnd g s => exact end_round_runInv g s ih
    | shutdown g s => exact runInv_store_congr (teardown_wordlist g s) ih
    | restart pick g s =>
      exact startup_runInv pick _ _ (wf_teardown g s ih) (by assumption)

/-- C9: in every engine state reachable through startup, process,
chooseNewWord, endRound and teardown, a running engine holds a non-empty
current word that is absent from the word list of the store. -/
theorem running_word_invariant (g : GameState) (s : StoreState)
    (h : Reachable (g, s)) (hrun : g.running = true) :
    g.word ≠ "" ∧ g.word ∉ s.wordlist.map Prod.fst := by
  obtain ⟨hw, habs⟩ := (reachable_runInv (g, s) h).2 hrun
  refine ⟨hw, fun hmem => ?_⟩
  obtain ⟨p, hp, hfst⟩ := List.mem_map.mp hmem
  exact habs p hp hfst

/-- Store for the C9 witness: one word, no saved state. -/
def sW9 : StoreState := ⟨[("apple", "fruit")], [], fun _ => none⟩

/-- Engine state produced by startup against `sW9`. -/
def gW9 : GameState := ⟨"apple", 3, "fruit", true⟩

/-- Store left after startup against `sW9` consumed the word. -/
def sW9after : StoreState := ⟨[], [], fun _ => none⟩

lemma wfW9 : WfStore sW9 := by
  constructor
  · unfold WordsOk
    decide
  · intro v hv
    simp [get_meta, sW9] at hv

/-- Witness for C9: the invariant at the state booted from `sW9`. -/
theorem running_word_invariant_witness :
    gW9.word ≠ "" ∧ gW9.word ∉ sW9after.wordlist.map Prod.fst :=
  running_word_invariant gW9 sW9after
    (Reachable.boot 0 sW9 (gW9, sW9after) wfW9 rfl) rfl
